import Mathlib

/-!
# event-simulator: the urgency sampler and the per-category request stream

A shallow embedding of `main.go`.

* Go `int` values (urgency levels, counters, the event type) are `Int`; the
  loop counters stay between `0` and the quota, which is itself a Go `int`,
  so no increment can leave the 64-bit range.
* Go `float64` values are modelled twice.  `ℚ` is exact arithmetic.  `F64`
  is IEEE-754 binary64 restricted to finite values: a value is an integer
  number of units of `2^-1074`, and a subtraction is the exact difference
  rounded to nearest, ties to even.  The sampler is written once, for any
  arithmetic, and used at both.
* A Go `map` is the list of its entries; `range` over a map visits the
  entries in an order the language leaves unspecified, so the sampler takes
  the visiting order as an argument.
* `rnd.Float64()`, the `range` order, the UUID, the clock and the outcome of
  the HTTP call come from the environment (`World`).
* `generateRequests` is a function from the state on entry to the state on
  return; the state records the outward calls made, in order.  The five
  goroutines of `main` are not modelled.
-/

set_option maxRecDepth 4000
set_option exponentiation.threshold 5000

namespace EventSimulator

/-! ## binary64 arithmetic -/

/-- Number of binary digits of `m`, by halving at most `fuel` times. -/
def bitLengthAux : Nat → Nat → Nat
  | 0, _ => 0
  | fuel + 1, m => if m = 0 then 0 else bitLengthAux fuel (m / 2) + 1

/-- Number of binary digits of `n` (`0` for `0`). -/
def bitLength (n : Nat) : Nat := bitLengthAux n n

/-- Nearest integer to `a / b`, a tie going to the even neighbour. -/
def roundNearestEven (a b : Nat) : Nat :=
  let q := a / b
  let rem := a % b
  if 2 * rem < b then q
  else if b < 2 * rem then q + 1
  else if q % 2 = 0 then q else q + 1

/-- Magnitude `a / b`, in units of `2^-1074`, rounded to the nearest binary64
value: 53 significant bits, and never finer than one unit (subnormals). -/
def roundToF64 (a b : Nat) : Nat :=
  let k := bitLength (a / b) - 53
  roundNearestEven a (b * 2 ^ k) * 2 ^ k

/-- A finite `float64`, as its value in units of `2^-1074` (every finite
binary64 value is a whole number of them).  Infinities and NaN are left out:
they cannot arise from subtracting values that lie in `[0, 1]`. -/
structure F64 where
  units : Int
deriving DecidableEq, Repr

namespace F64

/-- Units of `1.0`. -/
def one : Int := 2 ^ 1074

/-- Units of `2^-54`, half the spacing of the values in `[1/2, 1)`: the most
by which rounding moves a result that lies in `[0, 1]`. -/
def halfSpacing : Int := 2 ^ 1020

/-- Correctly rounded value of an exact result given in units. -/
def round (d : Int) : F64 := ⟨Int.sign d * (roundToF64 d.natAbs 1 : Nat)⟩

/-- The `float64` a decimal constant of the source denotes. -/
def ofRat (q : ℚ) : F64 :=
  ⟨Int.sign q.num * (roundToF64 (q.num.natAbs * 2 ^ 1074) q.den : Nat)⟩

/-- The exact value of a `float64`. -/
def toRat (x : F64) : ℚ := (x.units : ℚ) / 2 ^ 1074

/-- The value is one a `float64` can hold. -/
def Representable (x : F64) : Prop := round x.units = x

instance (x : F64) : Decidable (Representable x) :=
  inferInstanceAs (Decidable (round x.units = x))

instance : Sub F64 := ⟨fun a b => round (a.units - b.units)⟩

instance : LT F64 := ⟨fun a b => a.units < b.units⟩

instance (a b : F64) : Decidable (a < b) :=
  inferInstanceAs (Decidable (a.units < b.units))

end F64

/-! ## Event types and the configuration tables -/

/-- Go: `type EventType int`. -/
abbrev EventType := Int

def Transaction : EventType := 0
def Log : EventType := 1
def Notification : EventType := 2
def Command : EventType := 3
def Query : EventType := 4

/-- The five event types of the `const` block. -/
def categories : List EventType := [Transaction, Log, Notification, Command, Query]

/-- Entries of `eventUrgencyLevel[eventType]` with the weights as the
decimals written in the source; a missing key gives the nil map. -/
def eventUrgencyLevel (eventType : EventType) : List (Int × ℚ) :=
  if eventType = Transaction then [(1, 0.05), (2, 0.10), (3, 0.15), (4, 0.30), (5, 0.40)]
  else if eventType = Log then [(1, 0.40), (2, 0.30), (3, 0.15), (4, 0.05), (5, 0.10)]
  else if eventType = Notification then [(1, 0.10), (2, 0.20), (3, 0.30), (4, 0.30), (5, 0.10)]
  else if eventType = Command then [(1, 0.05), (2, 0.15), (3, 0.35), (4, 0.35), (5, 0.10)]
  else if eventType = Query then [(1, 0.30), (2, 0.30), (3, 0.25), (4, 0.10), (5, 0.05)]
  else []

/-- Entries of `eventUrgencyLevel[eventType]` as the `float64` values the
program holds at run time. -/
def eventUrgencyLevelF64 (eventType : EventType) : List (Int × F64) :=
  (eventUrgencyLevel eventType).map fun p => (p.1, F64.ofRat p.2)

/-- Go: `eventRequestCount`; a missing key reads as `0`. -/
def eventRequestCount (eventType : EventType) : Int :=
  if eventType ∈ categories then 100000 else 0

/-- Go: `eventDelay`, in nanoseconds; a missing key reads as `0`. -/
def eventDelay (_eventType : EventType) : Int := 0

/-! ## The sampler -/

section Sampler

variable {α : Type} [LT α] [DecidableRel (fun a b : α => a < b)] [Sub α]

/-- The `for level, percentage := range urgencyLevelMap` loop of
`getRandomUrgencyLevel`, over the entries in visiting order: `some level`
when the loop returns, `none` when it runs off the end. -/
def walk (r : α) : List (Int × α) → Option Int
  | [] => none
  | (level, percentage) :: rest =>
    if r < percentage then some level else walk (r - percentage) rest

/-- Go: `getRandomUrgencyLevel`, with `r` the value of `rnd.Float64()` and
`order` the entries of `eventUrgencyLevel[eventType]` as `range` visits them. -/
def getRandomUrgencyLevel (r : α) (order : List (Int × α)) : Int :=
  match walk r order with
  | some level => level
  | none => 1

end Sampler

/-- Go: `eventTypeToString`. -/
def eventTypeToString (eventType : EventType) : String :=
  if eventType = Transaction then "transaction"
  else if eventType = Log then "log"
  else if eventType = Notification then "notification"
  else if eventType = Command then "command"
  else if eventType = Query then "query"
  else "unknown"

/-! ## One request -/

/-- The three ways through `makeRequest`: `http.NewRequest` fails,
`client.Do` fails, or the request is answered. -/
inductive Outcome where
  | newRequestError
  | doError
  | ok
deriving DecidableEq, Repr

/-- The request `makeRequest` builds: method, URL and the `Header.Set` calls
in order. -/
structure Request where
  method : String
  url : String
  header : List (String × String)
deriving DecidableEq, Repr

/-- What `makeRequest` does to the outside world. -/
inductive HttpStep where
  | printf (format : String)
  | clientDo (req : Request)
  | closeBody
deriving DecidableEq, Repr

/-- Go: `makeRequest`.  `eventID` is `uuid.New().String()`, `now` is
`time.Now().Format(time.RFC3339)`; the function returns nothing, so the
result here is only what it did. -/
def makeRequest (eventType : EventType) (urgencyLevel : Int) (eventID now : String)
    (outcome : Outcome) : List HttpStep :=
  let url := "http://127.0.0.1:8181/event"
  if outcome = Outcome.newRequestError then
    [HttpStep.printf "Error creating request: %v\n"]
  else
    let req : Request :=
      { method := "POST"
        url := url
        header :=
          [("X-Event-Type", eventTypeToString eventType),
           ("X-Event-Urgency", toString urgencyLevel),
           ("X-Event-ID", eventID),
           ("X-Event-Request-Time", now)] }
    if outcome = Outcome.doError then
      [HttpStep.clientDo req, HttpStep.printf "Error making request: %v\n"]
    else
      [HttpStep.clientDo req, HttpStep.closeBody]

/-! ## One stream -/

/-- The package-level variables the stream reads. -/
structure Globals where
  eventUrgencyLevel : EventType → List (Int × F64)
  eventRequestCount : EventType → Int
  eventDelay : EventType → Int

/-- The tables of `main.go`. -/
def globals : Globals :=
  { eventUrgencyLevel := eventUrgencyLevelF64
    eventRequestCount := eventRequestCount
    eventDelay := eventDelay }

/-- What the environment hands to one stream: the value of its `k`-th
`rnd.Float64()` call, the order in which its `k`-th `range` visits the
entries of a map, and the UUID, clock reading and outcome of its `k`-th
`makeRequest` call. -/
structure World where
  float64 : Nat → F64
  rangeOrder : Nat → List (Int × F64) → List (Int × F64)
  uuid : Nat → String
  now : Nat → String
  outcome : Nat → Outcome

/-- The outward calls of `generateRequests`, in program order: `makeRequest`,
`time.Sleep` and `fmt.Println`.  The call of `getRandomUrgencyLevel` only
consumes a draw; it is counted in `State.draws`. -/
inductive Effect where
  | makeRequest (eventType : EventType) (urgencyLevel : Int) (steps : List HttpStep)
  | sleep (d : Int)
  | println (name : String) (count : Int)
deriving DecidableEq, Repr

/-- State of one run of `generateRequests`: the globals, the loop variable
`i`, the local `count`, how many `rnd.Float64()` and `makeRequest` calls it
has made, and the calls made so far. -/
structure State where
  globals : Globals
  i : Int
  count : Int
  draws : Nat
  requests : Nat
  trace : List Effect

/-- State on entry to `generateRequests`: `count := 0`, `i := 0`. -/
def State.init (g : Globals) : State :=
  { globals := g, i := 0, count := 0, draws := 0, requests := 0, trace := [] }

/-- The urgency level the sampler returns on the `k`-th draw of a stream. -/
def drawnLevel (g : Globals) (w : World) (eventType : EventType) (k : Nat) : Int :=
  getRandomUrgencyLevel (w.float64 k) (w.rangeOrder k (g.eventUrgencyLevel eventType))

/-- One pass through the body of the `for` loop of `generateRequests`,
followed by `i++`. -/
def iteration (w : World) (eventType : EventType) (st : State) : State :=
  let count := st.count + 1
  let urgencyLevel := drawnLevel st.globals w eventType st.draws
  let steps := makeRequest eventType urgencyLevel (w.uuid st.requests) (w.now st.requests)
    (w.outcome st.requests)
  { st with
    i := st.i + 1
    count := count
    draws := st.draws + 1
    requests := st.requests + 1
    trace := st.trace ++
      [Effect.makeRequest eventType urgencyLevel steps,
       Effect.sleep (st.globals.eventDelay eventType),
       Effect.println (eventTypeToString eventType) count] }

/-- The `for i := 0; i < eventRequestCount[eventType]; i++` loop, from a
given state. -/
def loop (w : World) (eventType : EventType) (st : State) : State :=
  if st.i < st.globals.eventRequestCount eventType then
    loop w eventType (iteration w eventType st)
  else st
termination_by (st.globals.eventRequestCount eventType - st.i).toNat
decreasing_by
  simp only [iteration]
  omega

/-- Go: `generateRequests`. -/
def generateRequests (g : Globals) (w : World) (eventType : EventType) : State :=
  loop w eventType (State.init g)

/-- The `makeRequest` calls of a trace, in order. -/
def dispatches : List Effect → List (EventType × Int × List HttpStep)
  | [] => []
  | Effect.makeRequest eventType urgencyLevel steps :: rest =>
    (eventType, urgencyLevel, steps) :: dispatches rest
  | _ :: rest => dispatches rest

/-- The calls of the pass that raises `count` to `k + 1`. -/
def iterationEffects (g : Globals) (w : World) (eventType : EventType) (k : Nat) : List Effect :=
  [Effect.makeRequest eventType (drawnLevel g w eventType k)
     (makeRequest eventType (drawnLevel g w eventType k) (w.uuid k) (w.now k) (w.outcome k)),
   Effect.sleep (g.eventDelay eventType),
   Effect.println (eventTypeToString eventType) ((k : Int) + 1)]

/-- The step is a `client.Do` call. -/
def HttpStep.isClientDo : HttpStep → Bool
  | HttpStep.clientDo _ => true
  | _ => false

/-- A world whose every request is answered. -/
def World.allOk (w : World) : World := { w with outcome := fun _ => Outcome.ok }

/-- A concrete environment: every draw is `0.25`, `range` visits the entries
as listed, and the outcomes cycle through the three cases. -/
def sampleWorld : World :=
  { float64 := fun _ => F64.ofRat 0.25
    rangeOrder := fun _ entries => entries
    uuid := fun k => toString k
    now := fun _ => "2024-01-01T00:00:00Z"
    outcome := fun k =>
      if k % 3 = 0 then Outcome.newRequestError
      else if k % 3 = 1 then Outcome.doError else Outcome.ok }

/-- The tables of `main.go` with every quota lowered to `3`. -/
def smallGlobals : Globals := { globals with eventRequestCount := fun _ => 3 }

/-- The counts reported by the `fmt.Println` calls of a trace, in order. -/
def progressCounts : List Effect → List Int
  | [] => []
  | Effect.println _ count :: rest => count :: progressCounts rest
  | _ :: rest => progressCounts rest

/-- A three-entry table whose weights are exact `float64` values:
`5 * 2^-56`, `1/2` and `1/4 - 3 * 2^-55`; their sum is `3/4 - 2^-56`. -/
def driftTable : List (Int × F64) :=
  [(1, F64.ofRat (5 / 2 ^ 56)), (2, F64.ofRat (1 / 2)), (3, F64.ofRat (1 / 4 - 3 / 2 ^ 55))]

/-! ## Sums of weights -/

/-- Exact sum of the weights of a table. -/
def totalWeight (order : List (Int × ℚ)) : ℚ := (order.map Prod.snd).sum

/-- Exact sum of the weights of the first `i` entries. -/
def cumulative (order : List (Int × ℚ)) (i : Nat) : ℚ := ((order.map Prod.snd).take i).sum

/-- Exact sum of `float64` weights, in units of `2^-1074`. -/
def totalUnits (order : List (Int × F64)) : Int := (order.map fun p => p.2.units).sum

/-! ## The stream: loop lemmas -/

theorem iteration_globals (w : World) (eventType : EventType) (st : State) :
    (iteration w eventType st).globals = st.globals := rfl

theorem iteration_i (w : World) (eventType : EventType) (st : State) :
    (iteration w eventType st).i = st.i + 1 := rfl

/-- The loop runs the body `quota - i` times (no times when that is negative). -/
theorem loop_eq_iterate (w : World) (eventType : EventType) :
    ∀ (m : Nat) (st : State), (st.globals.eventRequestCount eventType - st.i).toNat = m →
      loop w eventType st = (iteration w eventType)^[m] st := by
  intro m
  induction m with
  | zero =>
    intro st h
    rw [loop]
    have : ¬ st.i < st.globals.eventRequestCount eventType := by omega
    simp [this]
  | succ m ih =>
    intro st h
    rw [loop]
    have hlt : st.i < st.globals.eventRequestCount eventType := by omega
    rw [if_pos hlt, Function.iterate_succ_apply]
    apply ih
    rw [iteration_globals, iteration_i]
    omega

theorem generateRequests_eq_iterate (g : Globals) (w : World) (eventType : EventType) :
    generateRequests g w eventType =
      (iteration w eventType)^[(g.eventRequestCount eventType).toNat] (State.init g) := by
  unfold generateRequests
  apply loop_eq_iterate
  simp [State.init]

/-- State after `m` passes from the initial state. -/
theorem iterate_init (g : Globals) (w : World) (eventType : EventType) (m : Nat) :
    ((iteration w eventType)^[m] (State.init g)).globals = g ∧
    ((iteration w eventType)^[m] (State.init g)).i = m ∧
    ((iteration w eventType)^[m] (State.init g)).count = m ∧
    ((iteration w eventType)^[m] (State.init g)).draws = m ∧
    ((iteration w eventType)^[m] (State.init g)).requests = m ∧
    ((iteration w eventType)^[m] (State.init g)).trace =
      (List.range m).flatMap (iterationEffects g w eventType) := by
  induction m with
  | zero => simp [State.init]
  | succ m ih =>
    obtain ⟨hg, hi, hc, hd, hr, ht⟩ := ih
    rw [Function.iterate_succ_apply']
    refine ⟨?_, ?_, ?_, ?_, ?_, ?_⟩
    · rw [iteration_globals, hg]
    · rw [iteration_i, hi]; push_cast; rfl
    · show _ + 1 = _
      rw [hc]; push_cast; rfl
    · show _ + 1 = _
      rw [hd]
    · show _ + 1 = _
      rw [hr]
    · show _ ++ _ = _
      rw [ht, List.range_succ, List.flatMap_append, hg, hc, hd, hr]
      simp [iterationEffects]

theorem dispatches_append (xs ys : List Effect) :
    dispatches (xs ++ ys) = dispatches xs ++ dispatches ys := by
  induction xs with
  | nil => rfl
  | cons x xs ih => cases x <;> simp [dispatches, ih]

/-- The `makeRequest` calls of `m` passes: one per pass, in order. -/
theorem dispatches_flatMap (g : Globals) (w : World) (eventType : EventType) (m : Nat) :
    dispatches ((List.range m).flatMap (iterationEffects g w eventType)) =
      (List.range m).map fun k =>
        (eventType, drawnLevel g w eventType k,
          makeRequest eventType (drawnLevel g w eventType k) (w.uuid k) (w.now k) (w.outcome k)) := by
  induction m with
  | zero => rfl
  | succ m ih =>
    rw [List.range_succ, List.flatMap_append, dispatches_append, ih, List.map_append]
    simp [iterationEffects, dispatches]

/-! ## The sampler: lemmas for any arithmetic -/

section SamplerLemmas

variable {α : Type} [LT α] [DecidableRel (fun a b : α => a < b)] [Sub α]

/-- A level the loop returns is the key of an entry. -/
theorem walk_mem (order : List (Int × α)) :
    ∀ (r : α) (level : Int), walk r order = some level → level ∈ order.map Prod.fst := by
  induction order with
  | nil => intro r level h; simp [walk] at h
  | cons p rest ih =>
    obtain ⟨l, w⟩ := p
    intro r level h
    rw [walk] at h
    split at h
    · simp at h; simp [h]
    · simp [ih _ _ h]

/-- The sampler returns the key of an entry, or the default `1`. -/
theorem getRandomUrgencyLevel_mem (r : α) (order : List (Int × α)) :
    getRandomUrgencyLevel r order ∈ order.map Prod.fst ∨ getRandomUrgencyLevel r order = 1 := by
  unfold getRandomUrgencyLevel
  cases h : walk r order with
  | none => right; rfl
  | some level => left; exact walk_mem order r level h

theorem getRandomUrgencyLevel_of_none (r : α) (order : List (Int × α))
    (h : walk r order = none) : getRandomUrgencyLevel r order = 1 := by
  simp [getRandomUrgencyLevel, h]

theorem getRandomUrgencyLevel_of_some (r : α) (order : List (Int × α)) (level : Int)
    (h : walk r order = some level) : getRandomUrgencyLevel r order = level := by
  simp [getRandomUrgencyLevel, h]

end SamplerLemmas

/-! ## The sampler in exact arithmetic -/

theorem totalWeight_cons (p : Int × ℚ) (rest : List (Int × ℚ)) :
    totalWeight (p :: rest) = p.2 + totalWeight rest := by
  simp [totalWeight]

theorem totalWeight_nonneg (order : List (Int × ℚ)) (h : ∀ p ∈ order, 0 ≤ p.2) :
    0 ≤ totalWeight order := by
  induction order with
  | nil => simp [totalWeight]
  | cons p rest ih =>
    rw [totalWeight_cons]
    have h1 := h p (List.mem_cons_self _ _)
    have h2 := ih fun q hq => h q (List.mem_cons_of_mem _ hq)
    linarith

theorem cumulative_zero (order : List (Int × ℚ)) : cumulative order 0 = 0 := by
  simp [cumulative]

theorem cumulative_cons_succ (p : Int × ℚ) (rest : List (Int × ℚ)) (i : Nat) :
    cumulative (p :: rest) (i + 1) = p.2 + cumulative rest i := by
  simp [cumulative]

theorem cumulative_succ (order : List (Int × ℚ)) (i : Nat) (hi : i < order.length) :
    cumulative order (i + 1) = cumulative order i + order[i].2 := by
  unfold cumulative
  rw [List.sum_take_succ _ _ (by simpa using hi)]
  simp

theorem cumulative_mono (order : List (Int × ℚ)) (h : ∀ p ∈ order, 0 ≤ p.2) :
    ∀ (i j : Nat), i ≤ j → j ≤ order.length → cumulative order i ≤ cumulative order j := by
  intro i j hij
  induction hij with
  | refl => intro _; exact le_refl _
  | step hle ih =>
    rename_i k
    intro hk
    have hk1 : k < order.length := hk
    rw [cumulative_succ order k hk1]
    have := h order[k] (List.getElem_mem _)
    have := ih (Nat.le_of_lt hk1)
    linarith

/-- With non-negative weights, a draw at or above the sum runs off the end. -/
theorem walk_exact_none (order : List (Int × ℚ)) :
    ∀ (r : ℚ), (∀ p ∈ order, 0 ≤ p.2) → totalWeight order ≤ r → walk r order = none := by
  induction order with
  | nil => intro r _ _; rfl
  | cons p rest ih =>
    obtain ⟨l, w⟩ := p
    intro r hnn hsum
    rw [totalWeight_cons] at hsum
    have hrest : ∀ q ∈ rest, 0 ≤ q.2 := fun q hq => hnn q (List.mem_cons_of_mem _ hq)
    have h0 := totalWeight_nonneg rest hrest
    have hw : ¬ r < w := by simp only [not_lt]; simp only at hsum; linarith
    rw [walk, if_neg hw]
    apply ih _ hrest
    simp only at hsum
    linarith

/-- With non-negative weights, a draw in `[0, sum)` returns the level of the
entry whose cumulative interval holds it. -/
theorem walk_exact_some (order : List (Int × ℚ)) :
    ∀ (r : ℚ), (∀ p ∈ order, 0 ≤ p.2) → 0 ≤ r → r < totalWeight order →
      ∃ (i : Nat) (hi : i < order.length), walk r order = some order[i].1 ∧
        cumulative order i ≤ r ∧ r < cumulative order (i + 1) := by
  induction order with
  | nil =>
    intro r _ h0 h1
    simp [totalWeight] at h1
    linarith
  | cons p rest ih =>
    obtain ⟨l, w⟩ := p
    intro r hnn h0 h1
    rw [totalWeight_cons] at h1
    simp only at h1
    have hrest : ∀ q ∈ rest, 0 ≤ q.2 := fun q hq => hnn q (List.mem_cons_of_mem _ hq)
    by_cases hw : r < w
    · refine ⟨0, by simp, ?_, ?_, ?_⟩
      · simp [walk, hw]
      · rw [cumulative_zero]; exact h0
      · rw [cumulative_cons_succ, cumulative_zero]; simpa using hw
    · obtain ⟨i, hi, hwalk, hlo, hhi⟩ := ih (r - w) hrest (by linarith) (by linarith)
      refine ⟨i + 1, by simpa using hi, ?_, ?_, ?_⟩
      · simp [walk, hw, hwalk]
      · rw [cumulative_cons_succ]; simp only; linarith
      · rw [cumulative_cons_succ]; simp only; linarith

theorem progressCounts_append (xs ys : List Effect) :
    progressCounts (xs ++ ys) = progressCounts xs ++ progressCounts ys := by
  induction xs with
  | nil => rfl
  | cons x xs ih => cases x <;> simp [progressCounts, ih]

theorem progressCounts_flatMap (g : Globals) (w : World) (eventType : EventType) (m : Nat) :
    progressCounts ((List.range m).flatMap (iterationEffects g w eventType)) =
      (List.range m).map fun (k : Nat) => (k : Int) + 1 := by
  induction m with
  | zero => rfl
  | succ m ih =>
    rw [List.range_succ, List.flatMap_append, progressCounts_append, ih, List.map_append]
    simp [iterationEffects, progressCounts]

theorem makeRequest_clientDo_le_one (eventType : EventType) (urgencyLevel : Int)
    (eventID now : String) (outcome : Outcome) :
    ((makeRequest eventType urgencyLevel eventID now outcome).filter
      HttpStep.isClientDo).length ≤ 1 := by
  cases outcome <;> simp [makeRequest, HttpStep.isClientDo]

/-! ## Rounding error of `float64` subtraction -/

theorem bitLengthAux_le (fuel : Nat) : ∀ (m e : Nat), m < 2 ^ e → bitLengthAux fuel m ≤ e := by
  induction fuel with
  | zero => intro m e _; simp [bitLengthAux]
  | succ fuel ih =>
    intro m e h
    rw [bitLengthAux]
    split_ifs with hm
    · omega
    · cases e with
      | zero => simp at h; omega
      | succ e =>
        have : m / 2 < 2 ^ e := by
          rw [Nat.div_lt_iff_lt_mul (by norm_num)]
          rw [pow_succ] at h
          exact h
        have := ih (m / 2) e this
        omega

theorem bitLength_le (n e : Nat) (h : n < 2 ^ e) : bitLength n ≤ e :=
  bitLengthAux_le n n e h

/-- Rounding to a multiple of `G` moves down by at most half of `G`. -/
theorem roundNearestEven_lower (n G : Nat) (hG : 0 < G) :
    2 * n ≤ 2 * (roundNearestEven n G * G) + G := by
  have hdm := Nat.div_add_mod n G
  have hlt := Nat.mod_lt n hG
  have hmul : G * (n / G) = n / G * G := Nat.mul_comm _ _
  unfold roundNearestEven
  simp only
  split_ifs <;> nlinarith

/-- Rounding to a multiple of `G` does not pass a multiple of `G` above. -/
theorem roundNearestEven_upper (n G M : Nat) (hG : 0 < G) (h : n ≤ M * G) :
    roundNearestEven n G * G ≤ M * G := by
  have hdm := Nat.div_add_mod n G
  have hlt := Nat.mod_lt n hG
  have hq : n / G ≤ M := by
    exact Nat.div_le_of_le_mul (by rw [Nat.mul_comm]; exact h)
  have hup : 0 < n % G → n / G + 1 ≤ M := by
    intro hpos
    by_contra hcon
    have heq : n / G = M := by omega
    rw [heq, Nat.mul_comm] at hdm
    omega
  unfold roundNearestEven
  simp only
  split_ifs with h1 h2 h3
  · exact Nat.mul_le_mul_right G hq
  · exact Nat.mul_le_mul_right G (hup (by omega))
  · exact Nat.mul_le_mul_right G hq
  · exact Nat.mul_le_mul_right G (hup (by omega))

theorem roundToF64_bounds (n : Nat) (h : n ≤ 2 ^ 1074) :
    n ≤ roundToF64 n 1 + 2 ^ 1020 ∧ roundToF64 n 1 ≤ 2 ^ 1074 := by
  rcases Nat.lt_or_eq_of_le h with hlt | heq
  · have hk : bitLength n - 53 ≤ 1021 := by
      have := bitLength_le n 1074 hlt
      omega
    unfold roundToF64
    simp only [Nat.div_one, Nat.one_mul]
    generalize bitLength n - 53 = k at hk
    have hG : 0 < 2 ^ k := Nat.pow_pos (by norm_num)
    have hG2 : 2 ^ k ≤ 2 ^ 1021 := Nat.pow_le_pow_right (by norm_num) hk
    have hM : 2 ^ 1074 = 2 ^ (1074 - k) * 2 ^ k := by
      rw [← pow_add]; congr 1; omega
    constructor
    · have := roundNearestEven_lower n (2 ^ k) hG
      have h2 : (2:Nat) ^ 1021 = 2 * 2 ^ 1020 := by rw [← pow_succ']
      omega
    · rw [hM]
      exact roundNearestEven_upper n (2 ^ k) _ hG (by rw [← hM]; exact h)
  · subst heq
    decide!


theorem F64.one_eq_cast : F64.one = ((2 ^ 1074 : Nat) : Int) := by decide!

theorem F64.halfSpacing_eq_cast : F64.halfSpacing = ((2 ^ 1020 : Nat) : Int) := by decide!

theorem F64.halfSpacing_nonneg : 0 ≤ F64.halfSpacing := by decide!

theorem F64.round_bounds (d : Int) (h0 : 0 ≤ d) (h1 : d ≤ F64.one) :
    0 ≤ (F64.round d).units ∧ d - F64.halfSpacing ≤ (F64.round d).units ∧
      (F64.round d).units ≤ F64.one := by
  have hn : (d.natAbs : Int) = d := Int.natAbs_of_nonneg h0
  rw [F64.one_eq_cast, F64.halfSpacing_eq_cast]
  rw [F64.one_eq_cast, ← hn] at h1
  obtain ⟨hlo, hhi⟩ := roundToF64_bounds d.natAbs (Int.ofNat_le.1 h1)
  generalize 2 ^ 1074 = T at *
  generalize 2 ^ 1020 = E at *
  unfold F64.round
  simp only
  rcases eq_or_lt_of_le h0 with hz | hpos
  · subst hz
    refine ⟨by simp, by simp, by simp⟩
  · rw [Int.sign_eq_one_of_pos hpos, one_mul]
    refine ⟨Int.ofNat_nonneg _, ?_, Int.ofNat_le.2 hhi⟩
    have := Int.ofNat_le.2 hlo
    rw [hn] at this
    push_cast at this
    linarith

theorem totalUnits_cons (p : Int × F64) (rest : List (Int × F64)) :
    totalUnits (p :: rest) = p.2.units + totalUnits rest := by
  simp [totalUnits]

theorem totalUnits_nonneg (order : List (Int × F64)) (h : ∀ p ∈ order, 0 ≤ p.2.units) :
    0 ≤ totalUnits order := by
  induction order with
  | nil => simp [totalUnits]
  | cons p rest ih =>
    rw [totalUnits_cons]
    have h1 := h p (List.mem_cons_self _ _)
    have h2 := ih fun q hq => h q (List.mem_cons_of_mem _ hq)
    omega

theorem F64.sub_units (a b : F64) : (a - b).units = (F64.round (a.units - b.units)).units := rfl

theorem F64.lt_iff (a b : F64) : a < b ↔ a.units < b.units := Iff.rfl

/-- In `float64`, with non-negative weights, a draw in `[0, 1]` that is above
the exact sum by `2^-54` for every entry runs off the end. -/
theorem walk_f64_none (order : List (Int × F64)) :
    ∀ (r : F64), (∀ p ∈ order, 0 ≤ p.2.units) → r.units ≤ F64.one →
      totalUnits order + (order.length : Int) * F64.halfSpacing ≤ r.units →
      walk r order = none := by
  induction order with
  | nil => intro r _ _ _; rfl
  | cons p rest ih =>
    obtain ⟨l, w⟩ := p
    intro r hnn hr1 hgap
    rw [totalUnits_cons] at hgap
    simp only [List.length_cons] at hgap
    push_cast at hgap
    have hrest : ∀ q ∈ rest, 0 ≤ q.2.units := fun q hq => hnn q (List.mem_cons_of_mem _ hq)
    have hT := totalUnits_nonneg rest hrest
    have hw0 : 0 ≤ w.units := hnn (l, w) (List.mem_cons_self _ _)
    have hH := F64.halfSpacing_nonneg
    have hLH : 0 ≤ (rest.length : Int) * F64.halfSpacing := mul_nonneg (Int.ofNat_nonneg _) hH
    have hw : ¬ r < w := by
      rw [F64.lt_iff]
      linarith
    rw [walk, if_neg hw]
    clear hw
    obtain ⟨_, hlo, hhi⟩ := F64.round_bounds (r.units - w.units) (by linarith) (by linarith)
    apply ih (r - w) hrest
    · rw [F64.sub_units]; exact hhi
    · rw [F64.sub_units]; linarith

theorem levels_of_category (eventType : EventType) (h : eventType ∈ categories) :
    (eventUrgencyLevel eventType).map Prod.fst = [1, 2, 3, 4, 5] := by
  simp only [categories, List.mem_cons, List.mem_singleton, List.not_mem_nil, or_false] at h
  rcases h with h | h | h | h | h <;> subst h <;> decide

theorem levels_of_category_f64 (eventType : EventType) (h : eventType ∈ categories) :
    (eventUrgencyLevelF64 eventType).map Prod.fst = [1, 2, 3, 4, 5] := by
  rw [← levels_of_category eventType h]
  simp [eventUrgencyLevelF64, List.map_map, Function.comp_def]

theorem level_in_range {α : Type} [LT α] [DecidableRel (fun a b : α => a < b)] [Sub α]
    (r : α) (order table : List (Int × α)) (hperm : order.Perm table)
    (hlevels : table.map Prod.fst = [1, 2, 3, 4, 5]) :
    1 ≤ getRandomUrgencyLevel r order ∧ getRandomUrgencyLevel r order ≤ 5 := by
  rcases getRandomUrgencyLevel_mem r order with h | h
  · have h2 : getRandomUrgencyLevel r order ∈ table.map Prod.fst :=
      ((hperm.map Prod.fst).mem_iff).1 h
    rw [hlevels] at h2
    simp only [List.mem_cons, List.mem_singleton, List.not_mem_nil, or_false] at h2
    omega
  · omega

/-! ## Claims -/

/-- C1 (as amended): in `float64`, for a table with non-negative weights
whose exact sum is below 1, any visiting order, and a draw `r` in `[0, 1)`
that is above the exact sum by at least `2^-54` for every entry, the loop
returns no entry and the sampler gives the default level 1; in exact
arithmetic the same holds for every draw above the sum. -/
theorem C1_fallback_default :
    (∀ (table order : List (Int × F64)) (r : F64), order.Perm table →
      (∀ p ∈ table, 0 ≤ p.2.units) → totalUnits table < F64.one →
      0 ≤ r.units → r.units < F64.one →
      totalUnits table + (table.length : Int) * F64.halfSpacing ≤ r.units →
        walk r order = none ∧ getRandomUrgencyLevel r order = 1) ∧
    (∀ (table order : List (Int × ℚ)) (r : ℚ), order.Perm table →
      (∀ p ∈ table, 0 ≤ p.2) → totalWeight table < 1 →
      0 ≤ r → r < 1 → totalWeight table < r →
        walk r order = none ∧ getRandomUrgencyLevel r order = 1) := by
  constructor
  · intro table order r hperm hnn _ _ hr1 hgap
    have hsum : totalUnits order = totalUnits table :=
      (hperm.map fun (p : Int × F64) => p.2.units).sum_eq
    have hwalk : walk r order = none := by
      apply walk_f64_none order r (fun p hp => hnn p (hperm.mem_iff.1 hp)) (le_of_lt hr1)
      rw [hsum, hperm.length_eq]
      exact hgap
    exact ⟨hwalk, getRandomUrgencyLevel_of_none r order hwalk⟩
  · intro table order r hperm hnn _ _ _ hgap
    have hsum : totalWeight order = totalWeight table := (hperm.map Prod.snd).sum_eq
    have hwalk : walk r order = none := by
      apply walk_exact_none order r (fun p hp => hnn p (hperm.mem_iff.1 hp))
      rw [hsum]
      exact le_of_lt hgap
    exact ⟨hwalk, getRandomUrgencyLevel_of_none r order hwalk⟩

/-- Witness for C1 as amended: weights `1/4` and `1/4`, visited in reverse,
draw `3/4`, in both arithmetics. -/
theorem C1_fallback_default_witness :
    (walk (F64.ofRat 0.75) [(2, F64.ofRat 0.25), (1, F64.ofRat 0.25)] = none ∧
      getRandomUrgencyLevel (F64.ofRat 0.75) [(2, F64.ofRat 0.25), (1, F64.ofRat 0.25)] = 1) ∧
    (walk (0.75 : ℚ) [(2, 0.25), (1, 0.25)] = none ∧
      getRandomUrgencyLevel (0.75 : ℚ) [(2, 0.25), (1, 0.25)] = 1) :=
  ⟨C1_fallback_default.1 [(1, F64.ofRat 0.25), (2, F64.ofRat 0.25)]
      [(2, F64.ofRat 0.25), (1, F64.ofRat 0.25)] (F64.ofRat 0.75)
      (List.Perm.swap _ _ _) (by decide!) (by decide!) (by decide!) (by decide!) (by decide!),
    C1_fallback_default.2 [(1, 0.25), (2, 0.25)] [(2, 0.25), (1, 0.25)] 0.75
      (List.Perm.swap _ _ _) (by decide!) (by decide!) (by decide!) (by decide!) (by decide!)⟩

/-- C1 fails as stated: the weights of `driftTable` are the non-negative
`float64` values `5 * 2^-56` (`0x1.4p-54`), `1/2` and `1/4 - 3 * 2^-55`
(`0x1.ffffffffffffdp-3`), whose exact sum `3/4 - 2^-56` is below 1; the draw
`3/4` is in `[0, 1)` and above that sum; and yet the loop returns the third
entry.  `3/4 - 5 * 2^-56` is not a `float64` and rounds down to `3/4 - 2^-53`;
taking `1/2` off leaves `1/4 - 2^-53`, which is less than the third weight. -/
theorem C1_counterexample :
    (∀ p ∈ driftTable, p.2.Representable ∧ 0 ≤ p.2.units) ∧
    driftTable.map (fun p => p.2.toRat) = [5 / 2 ^ 56, 1 / 2, 1 / 4 - 3 / 2 ^ 55] ∧
    (totalUnits driftTable : ℚ) / 2 ^ 1074 = 3 / 4 - 1 / 2 ^ 56 ∧
    totalUnits driftTable < F64.one ∧
    (F64.ofRat 0.75).Representable ∧ (F64.ofRat 0.75).toRat = 3 / 4 ∧
    0 ≤ (F64.ofRat 0.75).units ∧ (F64.ofRat 0.75).units < F64.one ∧
    totalUnits driftTable < (F64.ofRat 0.75).units ∧
    (F64.ofRat 0.75 - F64.ofRat (5 / 2 ^ 56)).toRat = 3 / 4 - 1 / 2 ^ 53 ∧
    walk (F64.ofRat 0.75) driftTable = some 3 ∧
    getRandomUrgencyLevel (F64.ofRat 0.75) driftTable = 3 := by
  refine ⟨by decide!, by decide!, by decide!, by decide!, by decide!, by decide!, by decide!,
    by decide!, by decide!, by decide!, by decide!, by decide!⟩

/-- C2: in exact arithmetic, for a table with distinct levels and non-negative
weights summing to 1, walked in a given order, and a draw `r` in `[0, 1)`, the
sampler returns the level of entry `i` exactly when the sum of the weights
before entry `i` is at most `r` and `r` is below the sum up to and including
entry `i`; the length of that interval is the weight of entry `i`. -/
theorem C2_inverse_cdf_exact (order : List (Int × ℚ)) (r : ℚ)
    (hnodup : (order.map Prod.fst).Nodup) (hnonneg : ∀ p ∈ order, 0 ≤ p.2)
    (hsum : totalWeight order = 1) (hr0 : 0 ≤ r) (hr1 : r < 1)
    (i : Nat) (hi : i < order.length) :
    (getRandomUrgencyLevel r order = order[i].1 ↔
      cumulative order i ≤ r ∧ r < cumulative order (i + 1)) ∧
    cumulative order (i + 1) - cumulative order i = order[i].2 := by
  obtain ⟨j, hj, hwalk, hlo, hhi⟩ := walk_exact_some order r hnonneg hr0 (by rw [hsum]; exact hr1)
  have hres := getRandomUrgencyLevel_of_some r order _ hwalk
  refine ⟨⟨fun h => ?_, fun h => ?_⟩, ?_⟩
  · have hij : j = i := by
      have hj2 : j < (order.map Prod.fst).length := by simpa using hj
      have hi2 : i < (order.map Prod.fst).length := by simpa using hi
      have h1 : (order.map Prod.fst)[j] = (order.map Prod.fst)[i] := by
        simp only [List.getElem_map]
        rw [← hres, h]
      exact (List.Nodup.getElem_inj_iff hnodup).1 h1
    subst hij
    exact ⟨hlo, hhi⟩
  · have hij : j = i := by
      rcases Nat.lt_trichotomy j i with hlt | heq | hgt
      · have := cumulative_mono order hnonneg (j + 1) i hlt (Nat.le_of_lt hi)
        linarith [h.1]
      · exact heq
      · have := cumulative_mono order hnonneg (i + 1) j hgt (Nat.le_of_lt hj)
        linarith [h.2]
    subst hij
    exact hres
  · rw [cumulative_succ order i hi]; ring

/-- Witness for C2: the Transaction table in source order, entry 2 (level 3,
interval `[0.15, 0.30)`), draw `0.25`. -/
theorem C2_inverse_cdf_exact_witness :
    (getRandomUrgencyLevel (0.25 : ℚ) (eventUrgencyLevel Transaction) = 3 ↔
      cumulative (eventUrgencyLevel Transaction) 2 ≤ 0.25 ∧
        0.25 < cumulative (eventUrgencyLevel Transaction) 3) ∧
    cumulative (eventUrgencyLevel Transaction) 3 - cumulative (eventUrgencyLevel Transaction) 2
      = 0.15 :=
  C2_inverse_cdf_exact (eventUrgencyLevel Transaction) 0.25 (by decide)
    (by decide!) (by decide!) (by decide!) (by decide!) 2 (by decide)

/-- C3: for each of the five categories, every order in which `range` may
visit the entries of its table and every draw `r` in `[0, 1)`, the sampler
returns a level between 1 and 5; in `float64` and in exact arithmetic alike. -/
theorem C3_urgency_in_range (eventType : EventType) (hcat : eventType ∈ categories) :
    (∀ (order : List (Int × F64)) (r : F64), order.Perm (eventUrgencyLevelF64 eventType) →
      0 ≤ r.units → r.units < F64.one →
        1 ≤ getRandomUrgencyLevel r order ∧ getRandomUrgencyLevel r order ≤ 5) ∧
    (∀ (order : List (Int × ℚ)) (r : ℚ), order.Perm (eventUrgencyLevel eventType) →
      0 ≤ r → r < 1 →
        1 ≤ getRandomUrgencyLevel r order ∧ getRandomUrgencyLevel r order ≤ 5) :=
  ⟨fun order r hperm _ _ =>
      level_in_range r order _ hperm (levels_of_category_f64 eventType hcat),
    fun order r hperm _ _ =>
      level_in_range r order _ hperm (levels_of_category eventType hcat)⟩

/-- Witness for C3: Query, visited from its third entry round, draw `0.25`. -/
theorem C3_urgency_in_range_witness :
    Query ∈ categories ∧
    ((eventUrgencyLevelF64 Query).rotate 2).Perm (eventUrgencyLevelF64 Query) ∧
    0 ≤ (F64.ofRat 0.25).units ∧ (F64.ofRat 0.25).units < F64.one ∧
    1 ≤ getRandomUrgencyLevel (F64.ofRat 0.25) ((eventUrgencyLevelF64 Query).rotate 2) ∧
    getRandomUrgencyLevel (F64.ofRat 0.25) ((eventUrgencyLevelF64 Query).rotate 2) ≤ 5 :=
  ⟨by decide, List.rotate_perm _ _, by decide!, by decide!,
    (C3_urgency_in_range Query (by decide)).1 _ _ (List.rotate_perm _ _) (by decide!)
      (by decide!)⟩

/-- C4: for a category whose configured quota `n` is not negative, when
`generateRequests` returns its `count` is `n`, it has made `n` draws and `n`
`makeRequest` calls, and every one of those calls is for that category. -/
theorem C4_quota_exact (g : Globals) (w : World) (eventType : EventType) (n : Int)
    (hn : g.eventRequestCount eventType = n) (h0 : 0 ≤ n) :
    (generateRequests g w eventType).count = n ∧
    ((generateRequests g w eventType).draws : Int) = n ∧
    ((generateRequests g w eventType).requests : Int) = n ∧
    ((dispatches (generateRequests g w eventType).trace).length : Int) = n ∧
    ∀ d ∈ dispatches (generateRequests g w eventType).trace, d.1 = eventType := by
  rw [generateRequests_eq_iterate, hn]
  obtain ⟨_, _, hc, hd, hr, ht⟩ := iterate_init g w eventType n.toNat
  rw [hc, hd, hr, ht, dispatches_flatMap]
  have hcast : ((n.toNat : Nat) : Int) = n := Int.toNat_of_nonneg h0
  refine ⟨hcast, hcast, hcast, by simpa using hcast, ?_⟩
  intro d hd
  simp only [List.mem_map] at hd
  obtain ⟨k, _, rfl⟩ := hd
  rfl

/-- Witness for C4: the Log stream of `main.go`, quota 100000. -/
theorem C4_quota_exact_witness :
    globals.eventRequestCount Log = 100000 ∧ (0 : Int) ≤ 100000 ∧
    (generateRequests globals sampleWorld Log).count = 100000 ∧
    ((generateRequests globals sampleWorld Log).draws : Int) = 100000 ∧
    ((generateRequests globals sampleWorld Log).requests : Int) = 100000 ∧
    ((dispatches (generateRequests globals sampleWorld Log).trace).length : Int) = 100000 ∧
    ∀ d ∈ dispatches (generateRequests globals sampleWorld Log).trace, d.1 = Log :=
  ⟨by decide, by decide,
    C4_quota_exact globals sampleWorld Log 100000 (by decide) (by decide)⟩

/-- C5: whatever the outcomes of the `makeRequest` calls (request
construction error, transport error or success), `generateRequests` makes one
`makeRequest` call per pass, in order, each trying `client.Do` at most once,
and ends with the same loop variable, counter and number of calls as the run
in which every call succeeds. -/
theorem C5_failures_do_not_halt (g : Globals) (w : World) (eventType : EventType) :
    (generateRequests g w eventType).i = (generateRequests g w.allOk eventType).i ∧
    (generateRequests g w eventType).count = (generateRequests g w.allOk eventType).count ∧
    (generateRequests g w eventType).requests =
      (generateRequests g w.allOk eventType).requests ∧
    dispatches (generateRequests g w eventType).trace =
      ((List.range (g.eventRequestCount eventType).toNat).map fun (k : Nat) =>
        (eventType, drawnLevel g w eventType k,
          makeRequest eventType (drawnLevel g w eventType k) (w.uuid k) (w.now k)
            (w.outcome k))) ∧
    ∀ d ∈ dispatches (generateRequests g w eventType).trace,
      (d.2.2.filter HttpStep.isClientDo).length ≤ 1 := by
  rw [generateRequests_eq_iterate, generateRequests_eq_iterate]
  obtain ⟨_, hi, hc, _, hr, ht⟩ := iterate_init g w eventType (g.eventRequestCount eventType).toNat
  obtain ⟨_, hi2, hc2, _, hr2, _⟩ :=
    iterate_init g w.allOk eventType (g.eventRequestCount eventType).toNat
  rw [hi, hc, hr, hi2, hc2, hr2, ht, dispatches_flatMap]
  refine ⟨rfl, rfl, rfl, rfl, ?_⟩
  intro d hd
  simp only [List.mem_map] at hd
  obtain ⟨k, _, rfl⟩ := hd
  exact makeRequest_clientDo_le_one _ _ _ _ _

/-- C6 fails as stated: the Transaction table visited as listed (levels
1, 2, 3, 4, 5) and visited from its last entry round (levels 5, 1, 2, 3, 4) are
two orders of the same entries, and with the same draw `0.25` the sampler
returns 3 for the first (`0.25 - 0.05 - 0.10 < 0.15`) and 5 for the second
(`0.25 < 0.40`), in `float64` and in exact arithmetic alike. -/
theorem C6_counterexample :
    ((eventUrgencyLevelF64 Transaction).rotate 4).map Prod.fst = [5, 1, 2, 3, 4] ∧
    ((eventUrgencyLevelF64 Transaction).rotate 4).Perm (eventUrgencyLevelF64 Transaction) ∧
    getRandomUrgencyLevel (F64.ofRat 0.25) (eventUrgencyLevelF64 Transaction) = 3 ∧
    getRandomUrgencyLevel (F64.ofRat 0.25) ((eventUrgencyLevelF64 Transaction).rotate 4) = 5 ∧
    ((eventUrgencyLevel Transaction).rotate 4).Perm (eventUrgencyLevel Transaction) ∧
    getRandomUrgencyLevel (0.25 : ℚ) (eventUrgencyLevel Transaction) = 3 ∧
    getRandomUrgencyLevel (0.25 : ℚ) ((eventUrgencyLevel Transaction).rotate 4) = 5 :=
  ⟨by decide!, List.rotate_perm _ _, by decide!, by decide!, List.rotate_perm _ _,
    by decide!, by decide!⟩

/-- C6 (as amended): `generateRequests` and the calls it makes leave the
tables as they were, at every pass and on return; the level of the `k`-th
`makeRequest` call is the sampler's value for the table of the category, the
`k`-th draw and the order of the `k`-th `range`, so two passes with the same
draw and the same visiting order send the same level. -/
theorem C6_table_read_only (g : Globals) (w : World) (eventType : EventType) :
    (generateRequests g w eventType).globals = g ∧
    (∀ m : Nat, ((iteration w eventType)^[m] (State.init g)).globals = g) ∧
    (∀ k : Nat, k < (g.eventRequestCount eventType).toNat →
      ((dispatches (generateRequests g w eventType).trace)[k]?).map (fun d => d.2.1) =
        some (getRandomUrgencyLevel (w.float64 k)
          (w.rangeOrder k (g.eventUrgencyLevel eventType)))) ∧
    (∀ j k : Nat, j < (g.eventRequestCount eventType).toNat →
      k < (g.eventRequestCount eventType).toNat → w.float64 j = w.float64 k →
      w.rangeOrder j (g.eventUrgencyLevel eventType) =
        w.rangeOrder k (g.eventUrgencyLevel eventType) →
      ((dispatches (generateRequests g w eventType).trace)[j]?).map (fun d => d.2.1) =
        ((dispatches (generateRequests g w eventType).trace)[k]?).map (fun d => d.2.1)) := by
  have hlevel : ∀ k : Nat, k < (g.eventRequestCount eventType).toNat →
      ((dispatches (generateRequests g w eventType).trace)[k]?).map (fun d => d.2.1) =
        some (getRandomUrgencyLevel (w.float64 k)
          (w.rangeOrder k (g.eventUrgencyLevel eventType))) := by
    intro k hk
    rw [generateRequests_eq_iterate,
      (iterate_init g w eventType (g.eventRequestCount eventType).toNat).2.2.2.2.2,
      dispatches_flatMap]
    simp [List.getElem?_range hk, drawnLevel]
  refine ⟨?_, fun m => (iterate_init g w eventType m).1, hlevel, ?_⟩
  · rw [generateRequests_eq_iterate]
    exact (iterate_init g w eventType _).1
  · intro j k hj hk hr ho
    rw [hlevel j hj, hlevel k hk, hr, ho]

/-- Witness for C6 as amended: passes 0 and 2 of the Log stream of `main.go`,
which see the same draw and the same visiting order. -/
theorem C6_table_read_only_witness :
    (0 : Nat) < (globals.eventRequestCount Log).toNat ∧
    (2 : Nat) < (globals.eventRequestCount Log).toNat ∧
    sampleWorld.float64 0 = sampleWorld.float64 2 ∧
    sampleWorld.rangeOrder 0 (globals.eventUrgencyLevel Log) =
      sampleWorld.rangeOrder 2 (globals.eventUrgencyLevel Log) ∧
    ((dispatches (generateRequests globals sampleWorld Log).trace)[0]?).map
        (fun d => d.2.1) =
      ((dispatches (generateRequests globals sampleWorld Log).trace)[2]?).map
        (fun d => d.2.1) :=
  ⟨by decide, by decide, rfl, rfl,
    (C6_table_read_only globals sampleWorld Log).2.2.2 0 2 (by decide) (by decide) rfl rfl⟩

/-- C7: `eventTypeToString` gives the five lowercase names, pairwise
distinct, and `"unknown"` exactly for a value that is none of the five
constants; it is the value of the `X-Event-Type` header of every request
`makeRequest` hands to `client.Do`, and `makeRequest` hands one over unless
`http.NewRequest` fails. -/
theorem C7_event_type_names :
    eventTypeToString Transaction = "transaction" ∧
    eventTypeToString Log = "log" ∧
    eventTypeToString Notification = "notification" ∧
    eventTypeToString Command = "command" ∧
    eventTypeToString Query = "query" ∧
    (categories.map eventTypeToString).Nodup ∧
    (∀ eventType : EventType,
      eventTypeToString eventType = "unknown" ↔ eventType ∉ categories) ∧
    (∀ (eventType : EventType) (urgencyLevel : Int) (eventID now : String) (outcome : Outcome)
      (req : Request),
      HttpStep.clientDo req ∈ makeRequest eventType urgencyLevel eventID now outcome →
        req.header.lookup "X-Event-Type" = some (eventTypeToString eventType)) ∧
    ∀ (eventType : EventType) (urgencyLevel : Int) (eventID now : String) (outcome : Outcome),
      outcome ≠ Outcome.newRequestError →
        ∃ req : Request,
          HttpStep.clientDo req ∈ makeRequest eventType urgencyLevel eventID now outcome := by
  refine ⟨by decide, by decide, by decide, by decide, by decide, by decide, ?_, ?_, ?_⟩
  · intro eventType
    simp only [categories, List.mem_cons, List.mem_singleton, List.not_mem_nil, or_false]
    unfold eventTypeToString
    constructor
    · intro h
      split_ifs at h with h1 h2 h3 h4 h5
      · exact absurd h (by decide)
      · exact absurd h (by decide)
      · exact absurd h (by decide)
      · exact absurd h (by decide)
      · exact absurd h (by decide)
      · tauto
    · intro h
      have h1 : ¬ eventType = Transaction := fun e => h (Or.inl e)
      have h2 : ¬ eventType = Log := fun e => h (Or.inr (Or.inl e))
      have h3 : ¬ eventType = Notification := fun e => h (Or.inr (Or.inr (Or.inl e)))
      have h4 : ¬ eventType = Command := fun e => h (Or.inr (Or.inr (Or.inr (Or.inl e))))
      have h5 : ¬ eventType = Query := fun e => h (Or.inr (Or.inr (Or.inr (Or.inr e))))
      simp [h1, h2, h3, h4, h5]
  · intro eventType urgencyLevel eventID now outcome req h
    cases outcome <;> simp [makeRequest] at h <;> subst h <;> simp [List.lookup]
  · intro eventType urgencyLevel eventID now outcome h
    cases outcome
    · exact absurd rfl h
    · exact ⟨_, List.mem_cons_self _ _⟩
    · exact ⟨_, List.mem_cons_self _ _⟩

/-- Witness for C7: the request of a successful call for `Command`, and the
value `7`, which is none of the five constants. -/
theorem C7_event_type_names_witness :
    (eventTypeToString 7 = "unknown" ∧ (7 : EventType) ∉ categories) ∧
    List.lookup "X-Event-Type"
      ({ method := "POST", url := "http://127.0.0.1:8181/event",
         header := [("X-Event-Type", "command"), ("X-Event-Urgency", "4"),
           ("X-Event-ID", "id"), ("X-Event-Request-Time", "t")] } : Request).header
      = some (eventTypeToString Command) :=
  ⟨⟨by decide, (C7_event_type_names.2.2.2.2.2.2.1 7).1 (by decide)⟩,
    C7_event_type_names.2.2.2.2.2.2.2.1 Command 4 "id" "t" Outcome.ok _ (by decide)⟩

/-- C8: for each of the five categories the table gives a weight to exactly
the levels 1, 2, 3, 4 and 5, every weight is non-negative, and the weights,
read as the decimals written in the source, sum to exactly 1; the Transaction
entry is `{1:0.05, 2:0.10, 3:0.15, 4:0.30, 5:0.40}`. -/
theorem C8_table_well_formed (eventType : EventType) (hcat : eventType ∈ categories) :
    (eventUrgencyLevel eventType).map Prod.fst = [1, 2, 3, 4, 5] ∧
    (∀ p ∈ eventUrgencyLevel eventType, 0 ≤ p.2) ∧
    totalWeight (eventUrgencyLevel eventType) = 1 ∧
    eventUrgencyLevel Transaction = [(1, 0.05), (2, 0.10), (3, 0.15), (4, 0.30), (5, 0.40)] := by
  refine ⟨levels_of_category eventType hcat, ?_, ?_, rfl⟩
  · simp only [categories, List.mem_cons, List.mem_singleton, List.not_mem_nil, or_false] at hcat
    rcases hcat with h | h | h | h | h <;> subst h <;> decide!
  · simp only [categories, List.mem_cons, List.mem_singleton, List.not_mem_nil, or_false] at hcat
    rcases hcat with h | h | h | h | h <;> subst h <;> decide!

/-- Witness for C8: the Notification entry. -/
theorem C8_table_well_formed_witness :
    Notification ∈ categories ∧
    (eventUrgencyLevel Notification).map Prod.fst = [1, 2, 3, 4, 5] ∧
    (∀ p ∈ eventUrgencyLevel Notification, 0 ≤ p.2) ∧
    totalWeight (eventUrgencyLevel Notification) = 1 ∧
    eventUrgencyLevel Transaction = [(1, 0.05), (2, 0.10), (3, 0.15), (4, 0.30), (5, 0.40)] :=
  ⟨by decide, C8_table_well_formed Notification (by decide)⟩

/-- C10: the calls `generateRequests` makes for a category with quota `n`
are, for `k = 1, ..., n` in this order, one `makeRequest` for that category,
then one `time.Sleep` of that category's delay, then one `fmt.Println` with
the category name and `k`; the counts printed are `1, ..., n`, strictly
increasing. -/
theorem C10_effect_order (g : Globals) (w : World) (eventType : EventType) (n : Int)
    (hn : g.eventRequestCount eventType = n) :
    (generateRequests g w eventType).trace =
      ((List.range n.toNat).flatMap fun (k : Nat) =>
        [Effect.makeRequest eventType (drawnLevel g w eventType k)
           (makeRequest eventType (drawnLevel g w eventType k) (w.uuid k) (w.now k)
             (w.outcome k)),
         Effect.sleep (g.eventDelay eventType),
         Effect.println (eventTypeToString eventType) ((k : Int) + 1)]) ∧
    progressCounts (generateRequests g w eventType).trace =
      ((List.range n.toNat).map fun (k : Nat) => (k : Int) + 1) ∧
    (progressCounts (generateRequests g w eventType).trace).Pairwise (fun a b => a < b) := by
  rw [generateRequests_eq_iterate, hn]
  obtain ⟨_, _, _, _, _, ht⟩ := iterate_init g w eventType n.toNat
  rw [ht, progressCounts_flatMap]
  refine ⟨rfl, rfl, ?_⟩
  rw [List.pairwise_map]
  refine List.Pairwise.imp ?_ (List.pairwise_lt_range n.toNat)
  intro a b hab
  omega

/-- Witness for C10: the Query stream with quota 3. -/
theorem C10_effect_order_witness :
    smallGlobals.eventRequestCount Query = 3 ∧
    progressCounts (generateRequests smallGlobals sampleWorld Query).trace = [1, 2, 3] :=
  ⟨rfl, (C10_effect_order smallGlobals sampleWorld Query 3 rfl).2.1⟩

end EventSimulator
